import Mathlib

/-!
Verification of `zfs_rotational_check.py`.

The script decides whether a ZFS pool is backed only by solid-state disks.
We embed its functions shallowly:

* strings are Lean `String`s, with the character-level work done on `List Char`;
* the filesystem (symlink resolution via `os.path.realpath`, file existence
  and single-character reads) is an explicit `FS` structure;
* the external `zpool status` subprocess is an explicit `ZEnv` field;
* Python's dynamic typing at the `isinstance` checks is modelled by `Dyn`
  (a value that is either a string or not);
* Python exceptions become `Except PyErr`, and the unbounded recursion of
  `is_rotational` becomes a fuel-indexed function returning `Option`
  (`none` = the recursion did not finish within the given fuel).
-/

/-- Errors raised by the script (each constructor corresponds to one
`raise Exception(...)` site in the source). -/
inductive PyErr
  /-- `'Could not find file {}!'` in `is_rotational`. -/
  | fileNotFound (file : String)
  /-- `'Unknown value in {}!'` in `is_rotational`. -/
  | unknownValue (file : String)
  /-- `'Cannot get blockdevices for pool of type "{}"'` in `block_devices_for_pool`. -/
  | invalidPoolBlockDevices
  /-- `'Cannot check pool of type "{}"'` in `zpool_is_pure_solid_state`. -/
  | invalidPoolCheck
  /-- `'zpool status command did not return successfully for pool "{}" ...'` in `zpool_status`. -/
  | poolQueryFailed (pool : String)
  deriving DecidableEq, Repr

/-- A Python value passed where a pool name is expected: either a string
or some non-string value (only its non-stringness matters to the code). -/
inductive Dyn
  | str (s : String)
  | nonStr
  deriving DecidableEq, Repr

/-- Outcome of running the external `zpool status -P <pool>` command:
either its decoded stdout, or a non-zero exit status. -/
inductive ZpoolOutcome
  | out (stdout : String)
  | exitNonZero
  deriving DecidableEq, Repr

/-- The filesystem as the script sees it: `os.path.realpath`, and a map from
paths to file contents (`none` = the path does not exist). -/
structure FS where
  realpath : String → String
  file : String → Option String

/-- `os.path.exists`. -/
def FS.pathExists (fs : FS) (p : String) : Bool :=
  (fs.file p).isSome

/-- `f.read(1)`: the first character of the file's content (empty string for
an empty file; `""` also for a missing file, though the script only reads
after an existence check). -/
def FS.read1 (fs : FS) (p : String) : String :=
  String.mk (((fs.file p).getD "").toList.take 1)

/-- The environment of a run: the filesystem and the external command. -/
structure ZEnv where
  fs : FS
  zpool : String → ZpoolOutcome

/-! ### Character-level utilities -/

/-- Split a character list at every occurrence of `c`; adjacent occurrences
produce empty fields, like Python `str.split('\x7bc\x7d')`. -/
def splitCh (c : Char) : List Char → List (List Char)
  | [] => [[]]
  | x :: xs =>
    match splitCh c xs with
    | [] => if x = c then [[], [x]] else [[x]]
    | f :: fs => if x = c then [] :: f :: fs else (x :: f) :: fs

/-- Rejoin fields with `c` between them; left inverse of `splitCh c`. -/
def joinCh (c : Char) : List (List Char) → List Char
  | [] => []
  | [f] => f
  | f :: fs => f ++ c :: joinCh c fs

/-- `os.path.basename`: the part after the last `'/'`. -/
def basenameChars (l : List Char) : List Char :=
  (splitCh '/' l).getLastD []

/-- `re.sub('[0-9]+$', '', s)`: remove the maximal trailing run of decimal
digits. -/
def stripTrailingDigits (l : List Char) : List Char :=
  (l.reverse.dropWhile Char.isDigit).reverse

/-- Replace each maximal run of character `t` by the single character `r`.
The boolean state records whether the previous character was `t`.
With `t = '\t'`, `r = ' '` this is `re.sub('\t+', ' ', s)`;
with `t = r = ' '` it is `re.sub(' +', ' ', s)`. -/
def collapseRuns (t r : Char) : Bool → List Char → List Char
  | _, [] => []
  | prev, x :: xs =>
    if x = t then
      if prev then collapseRuns t r true xs
      else r :: collapseRuns t r true xs
    else x :: collapseRuns t r false xs

/-- `re.sub('\t+', ' ', s)`. -/
def collapseTabs (l : List Char) : List Char :=
  collapseRuns '\t' ' ' false l

/-- `re.sub(' +', ' ', s)`. -/
def collapseSpaces (l : List Char) : List Char :=
  collapseRuns ' ' ' ' false l

/-- Remove trailing whitespace characters (keeps the list a prefix of the
input). -/
def dropTrailingWS : List Char → List Char
  | [] => []
  | x :: xs =>
    match dropTrailingWS xs with
    | [] => if x.isWhitespace then [] else [x]
    | y :: ys => x :: y :: ys

/-- Python `str.strip()`: remove leading and trailing whitespace. -/
def trimChars (l : List Char) : List Char :=
  dropTrailingWS (l.dropWhile Char.isWhitespace)

/-! ### The device-line grammar

The source builds the regular expression
`^(/dev/[a-zA-Z0-9/_-]*) (DEGRADED|FAULTED|OFFLINE|ONLINE|REMOVED|UNAVAIL) ([0-9][0-9]*) ([0-9][0-9]*) ([0-9][0-9]*)$`
and matches it against every line (`re.MULTILINE`).  None of the five
components can contain a space and the pattern has exactly four literal
spaces, so a line matches exactly when splitting it at spaces yields five
fields of the required shapes. -/

/-- The character class `[a-zA-Z0-9/_-]` (ASCII letters and digits). -/
def isDevChar (c : Char) : Bool :=
  c.isAlpha || c.isDigit || c = '/' || c = '_' || c = '-'

/-- `/dev/[a-zA-Z0-9/_-]*`: the literal prefix `/dev/` followed by zero or
more characters of the class. -/
def devOk (l : List Char) : Bool :=
  decide (l.take 5 = ['/', 'd', 'e', 'v', '/']) && (l.drop 5).all isDevChar

/-- The six pool-device states accepted by the grammar. -/
def stateStrings : List (List Char) :=
  ["DEGRADED", "FAULTED", "OFFLINE", "ONLINE", "REMOVED", "UNAVAIL"].map String.toList

/-- `(DEGRADED|FAULTED|OFFLINE|ONLINE|REMOVED|UNAVAIL)`. -/
def stateOk (l : List Char) : Bool :=
  decide (l ∈ stateStrings)

/-- `[0-9][0-9]*`: a nonempty digit sequence. -/
def numOk (l : List Char) : Bool :=
  !l.isEmpty && l.all Char.isDigit

/-- Match one (already normalized) line against the anchored device-line
regular expression; return the first capture group (the device path) on a
match. -/
def matchDeviceLine (l : List Char) : Option (List Char) :=
  match splitCh ' ' l with
  | [dev, st, n1, n2, n3] =>
    if devOk dev && stateOk st && numOk n1 && numOk n2 && numOk n3 then some dev
    else none
  | _ => none

/-- The whitespace normalization applied to the status text before matching:
collapse tab runs to single spaces, collapse space runs, then strip each
line.  Here applied to one line. -/
def normalizeLine (l : List Char) : List Char :=
  trimChars (collapseSpaces (collapseTabs l))

/-- Normalize a whole status text and cut it into lines.  The source
collapses tabs and spaces over the whole text and then strips every line;
since neither substitution involves `'\n'`, this equals collapsing and
stripping each line separately. -/
def normalizeLines (s : List Char) : List (List Char) :=
  (splitCh '\n' (collapseSpaces (collapseTabs s))).map trimChars

/-- The pure parsing part of `block_devices_for_pool`: normalize the status
text and collect, in order, the capture group of every line matching the
device-line expression (`reg.findall`). -/
def block_devices_parse (status : String) : List String :=
  ((normalizeLines status.toList).filterMap matchDeviceLine).map String.mk

/-! ### The script's functions -/

/-- `base_disk_for_block_device`: follow links with `os.path.realpath`,
then remove the trailing digit run. -/
def base_disk_for_block_device (fs : FS) (partition : String) : String :=
  String.mk (stripTrailingDigits (fs.realpath partition).toList)

/-- The sysfs path `'/sys/block/\x7bbase_name\x7d/queue/rotational'` built in
`is_rotational`. -/
def rotational_file (block_device : String) : String :=
  "/sys/block/" ++ String.mk (basenameChars block_device.toList) ++ "/queue/rotational"

/-- `is_rotational`, with fuel bounding the recursion depth: `none` means the
recursion did not terminate within `fuel` calls. -/
def is_rotational (fuel : Nat) (fs : FS) (block_device : String) :
    Option (Except PyErr Bool) :=
  match fuel with
  | 0 => none
  | fuel + 1 =>
    let rfile := rotational_file block_device
    if fs.pathExists rfile then
      let content := fs.read1 rfile
      if content = "1" then some (Except.ok true)
      else if content = "0" then some (Except.ok false)
      else some (Except.error (PyErr.unknownValue rfile))
    else
      let disk := base_disk_for_block_device fs block_device
      if disk ≠ block_device then is_rotational fuel fs disk
      else some (Except.error (PyErr.fileNotFound rfile))

/-- `zpool_status` (default timeout `-1`, so the timeout branch is dead):
returns `None` for a non-string pool, raises on a non-zero exit status,
otherwise returns the decoded stdout. -/
def zpool_status (env : ZEnv) (pool : Dyn) : Except PyErr (Option String) :=
  match pool with
  | Dyn.nonStr => Except.ok none
  | Dyn.str p =>
    match env.zpool p with
    | ZpoolOutcome.out stdout => Except.ok (some stdout)
    | ZpoolOutcome.exitNonZero => Except.error (PyErr.poolQueryFailed p)

/-- `block_devices_for_pool`: reject non-strings, fetch the status text,
return `[]` if it is `None`, else parse it. -/
def block_devices_for_pool (env : ZEnv) (pool : Dyn) : Except PyErr (List String) :=
  match pool with
  | Dyn.nonStr => Except.error PyErr.invalidPoolBlockDevices
  | Dyn.str p =>
    match zpool_status env (Dyn.str p) with
    | Except.error e => Except.error e
    | Except.ok none => Except.ok []
    | Except.ok (some status) => Except.ok (block_devices_parse status)

/-- The list comprehension `[ is_rotational(d) for d in disks ]`: evaluated
left to right, the first exception aborts; `none` propagates fuel
exhaustion. -/
def rotationals (fuel : Nat) (fs : FS) : List String → Option (Except PyErr (List Bool))
  | [] => some (Except.ok [])
  | d :: ds =>
    match is_rotational fuel fs d with
    | none => none
    | some (Except.error e) => some (Except.error e)
    | some (Except.ok b) =>
      match rotationals fuel fs ds with
      | none => none
      | some (Except.error e) => some (Except.error e)
      | some (Except.ok bs) => some (Except.ok (b :: bs))

/-- `zpool_is_pure_solid_state`: reject non-strings, get the devices, map
each to its base disk, deduplicate (`list(set(...))` — set semantics),
classify each, and return `not True in rotationals`. -/
def zpool_is_pure_solid_state (env : ZEnv) (fuel : Nat) (pool : Dyn) :
    Option (Except PyErr Bool) :=
  match pool with
  | Dyn.nonStr => some (Except.error PyErr.invalidPoolCheck)
  | Dyn.str p =>
    match block_devices_for_pool env (Dyn.str p) with
    | Except.error e => some (Except.error e)
    | Except.ok devs =>
      let disks := (devs.map (base_disk_for_block_device env.fs)).dedup
      match rotationals fuel env.fs disks with
      | none => none
      | some (Except.error e) => some (Except.error e)
      | some (Except.ok rots) => some (Except.ok (!rots.contains true))

/-! ### Specification-side definitions and concrete fixtures -/

/-- The line shape stated by the specification: the line is exactly
`<device-path> <state> <n1> <n2> <n3>` with single spaces, where the
device path is `/dev/` followed by characters of the allowed class, the
state is one of the six pool states, and the counters are nonempty digit
sequences. -/
def LineShape (l dev : List Char) : Prop :=
  ∃ st n1 n2 n3 : List Char,
    l = dev ++ ' ' :: (st ++ ' ' :: (n1 ++ ' ' :: (n2 ++ ' ' :: n3))) ∧
    devOk dev = true ∧ stateOk st = true ∧
    numOk n1 = true ∧ numOk n2 = true ∧ numOk n3 = true

/-- No two adjacent spaces occur in the list. -/
def noSpacePair : List Char → Bool
  | [] => true
  | [_] => true
  | x :: y :: xs => !(x = ' ' && y = ' ') && noSpacePair (y :: xs)

/-- A filesystem with no symlinks and no files. -/
def fsId : FS :=
  { realpath := fun s => s
    file := fun _ => none }

/-- An environment whose status command always succeeds with fixed output. -/
def envOut : ZEnv :=
  { fs := fsId
    zpool := fun _ => ZpoolOutcome.out "stdout" }

/-- A filesystem with two plain disks: `sda` solid-state (`'0'`),
`sdb` rotational (`'1'`). -/
def fsSsd : FS :=
  { realpath := fun s => s
    file := fun p =>
      if p = "/sys/block/sda/queue/rotational" then some "0"
      else if p = "/sys/block/sdb/queue/rotational" then some "1"
      else none }

/-- A status text listing two partitions of `sda`. -/
def statusTwoSsd : String :=
  "\t/dev/sda1 ONLINE 0 0 0\n\t/dev/sda2 ONLINE 0 0 0\n"

/-- Environment over `fsSsd` whose status command prints `statusTwoSsd`. -/
def envSsd : ZEnv :=
  { fs := fsSsd
    zpool := fun _ => ZpoolOutcome.out statusTwoSsd }

/-- Environment whose status command succeeds with empty output. -/
def envNoDevices : ZEnv :=
  { fs := fsId
    zpool := fun _ => ZpoolOutcome.out "" }

/-- A filesystem where `/dev/a` is a symlink to `/dev/b1` and `/dev/b` a
symlink to `/dev/c1`; only disk `c` has a rotational flag.  Classifying
`/dev/a` then needs two re-resolutions: `/dev/a → /dev/b → /dev/c`. -/
def fsChain : FS :=
  { realpath := fun s =>
      if s = "/dev/a" then "/dev/b1"
      else if s = "/dev/b" then "/dev/c1"
      else s
    file := fun p =>
      if p = "/sys/block/c/queue/rotational" then some "0" else none }

/-- A filesystem where `/dev/sda` is a symlink to `/dev/root0` (a digit-final
target), so stripping the digit from the resolved path and re-resolving
moves again. -/
def fsLink : FS :=
  { realpath := fun s => if s = "/dev/sda" then "/dev/root0" else s
    file := fun _ => none }

/-! ### Lemmas about `splitCh` -/

theorem splitCh_ne_nil (c : Char) (l : List Char) : splitCh c l ≠ [] := by
  cases l with
  | nil => simp [splitCh]
  | cons x xs =>
    simp only [splitCh]
    cases h : splitCh c xs <;> simp only [h] <;> split <;> simp

theorem joinCh_splitCh (c : Char) (l : List Char) : joinCh c (splitCh c l) = l := by
  induction l with
  | nil => rfl
  | cons x xs ih =>
    simp only [splitCh]
    cases h : splitCh c xs with
    | nil => exact absurd h (splitCh_ne_nil c xs)
    | cons f fs =>
      rw [h] at ih
      by_cases hx : x = c
      · subst hx
        simp only [if_pos rfl]
        cases fs with
        | nil => simpa [joinCh] using ih
        | cons g gs => simpa [joinCh] using ih
      · simp only [if_neg hx]
        cases fs with
        | nil => simpa [joinCh] using ih
        | cons g gs => simpa [joinCh] using ih

theorem splitCh_of_not_mem {c : Char} {l : List Char} (h : c ∉ l) :
    splitCh c l = [l] := by
  induction l with
  | nil => rfl
  | cons x xs ih =>
    have hx : x ≠ c := fun hc => h (hc ▸ List.mem_cons_self x xs)
    have hxs : c ∉ xs := fun hc => h (List.mem_cons_of_mem x hc)
    simp only [splitCh, ih hxs, if_neg hx]

theorem splitCh_append {c : Char} {a : List Char} (b : List Char) (h : c ∉ a) :
    splitCh c (a ++ c :: b) = a :: splitCh c b := by
  induction a with
  | nil =>
    simp only [List.nil_append, splitCh]
    cases hb : splitCh c b with
    | nil => exact absurd hb (splitCh_ne_nil c b)
    | cons f fs => simp
  | cons y ys ih =>
    have hy : y ≠ c := fun hc => h (hc ▸ List.mem_cons_self y ys)
    have hys : c ∉ ys := fun hc => h (List.mem_cons_of_mem y hc)
    simp only [List.cons_append, splitCh, List.append_eq, ih hys, if_neg hy]

/-! ### No component of a matching line contains a space -/

theorem devOk_no_space {l : List Char} (h : devOk l = true) : ' ' ∉ l := by
  intro hm
  have hp := (Bool.and_eq_true _ _).mp h
  have h1 : l.take 5 = ['/', 'd', 'e', 'v', '/'] := of_decide_eq_true hp.1
  have h2 := hp.2
  have hsplit : l.take 5 ++ l.drop 5 = l := List.take_append_drop 5 l
  rw [← hsplit] at hm
  rcases List.mem_append.mp hm with hmem | hmem
  · rw [h1] at hmem
    simp at hmem
  · have hc : isDevChar ' ' = true := List.all_eq_true.mp h2 _ hmem
    exact absurd hc (by decide)

theorem stateOk_no_space {l : List Char} (h : stateOk l = true) : ' ' ∉ l := by
  have hm : l ∈ stateStrings := of_decide_eq_true h
  simp only [stateStrings, List.map_cons, List.map_nil, List.mem_cons,
    List.not_mem_nil, or_false] at hm
  rcases hm with h1 | h1 | h1 | h1 | h1 | h1 <;> subst h1 <;> decide

theorem numOk_no_space {l : List Char} (h : numOk l = true) : ' ' ∉ l := by
  intro hm
  have h2 := ((Bool.and_eq_true _ _).mp h).2
  have hc : Char.isDigit ' ' = true := List.all_eq_true.mp h2 _ hm
  exact absurd hc (by decide)

/-- The anchored device-line regular expression matches a line with capture
group `dev` exactly when the line has the five-component shape demanded by
the grammar. -/
theorem matchDeviceLine_eq_some_iff (l dev : List Char) :
    matchDeviceLine l = some dev ↔ LineShape l dev := by
  constructor
  · intro h
    unfold matchDeviceLine at h
    rcases hsp : splitCh ' ' l with _ | ⟨f1, _ | ⟨f2, _ | ⟨f3, _ | ⟨f4, _ | ⟨f5, _ | ⟨f6, rest⟩⟩⟩⟩⟩⟩ <;>
      rw [hsp] at h <;> try exact Option.noConfusion h
    have hl : l = f1 ++ ' ' :: (f2 ++ ' ' :: (f3 ++ ' ' :: (f4 ++ ' ' :: f5))) := by
      have hj := joinCh_splitCh ' ' l
      rw [hsp] at hj
      simpa [joinCh] using hj.symm
    have h' : (if (devOk f1 && stateOk f2 && numOk f3 && numOk f4 && numOk f5) = true
        then some f1 else none) = some dev := h
    by_cases hcond : (devOk f1 && stateOk f2 && numOk f3 && numOk f4 && numOk f5) = true
    · rw [if_pos hcond] at h'
      have hdev : f1 = dev := by simpa using h'
      subst hdev
      simp only [Bool.and_eq_true] at hcond
      exact ⟨f2, f3, f4, f5, hl, hcond.1.1.1.1, hcond.1.1.1.2, hcond.1.1.2, hcond.1.2, hcond.2⟩
    · rw [if_neg hcond] at h'
      exact absurd h' (by simp)
  · rintro ⟨st, n1, n2, n3, hl, hdev, hst, hn1, hn2, hn3⟩
    subst hl
    unfold matchDeviceLine
    rw [splitCh_append _ (devOk_no_space hdev),
      splitCh_append _ (stateOk_no_space hst),
      splitCh_append _ (numOk_no_space hn1),
      splitCh_append _ (numOk_no_space hn2),
      splitCh_of_not_mem (numOk_no_space hn3)]
    simp [hdev, hst, hn1, hn2, hn3]

/-- C6: a normalized line is matched by the parser if and only if it has
exactly the shape `<device-path> <state> <n1> <n2> <n3>` (device path
starting with `/dev/` over the allowed character class, one of the six
states, three digit sequences); `/dev/sda ONLINE 0 0 0` yields `/dev/sda`,
and a pool summary line whose first token does not start with `/dev/`
yields nothing. -/
theorem claim_C6_line_grammar :
    (∀ l dev : List Char, matchDeviceLine l = some dev ↔ LineShape l dev) ∧
    matchDeviceLine ("/dev/sda ONLINE 0 0 0".toList) = some ("/dev/sda".toList) ∧
    matchDeviceLine (normalizeLine ("pool1  ONLINE  0 0 0".toList)) = none :=
  ⟨matchDeviceLine_eq_some_iff, rfl, rfl⟩

/-- C10: the device-path pattern `/dev/[a-zA-Z0-9/_-]*` allows an empty
suffix after `/dev/`: the line `/dev/ ONLINE 0 0 0` is matched and the
string `/dev/` itself is returned as a device path. -/
theorem claim_C10_empty_dev_suffix :
    matchDeviceLine ("/dev/ ONLINE 0 0 0".toList) = some ("/dev/".toList) ∧
    block_devices_parse "/dev/ ONLINE 0 0 0" = ["/dev/"] :=
  ⟨rfl, rfl⟩

/-! ### Lemmas about whitespace normalization -/

theorem collapseRuns_eq_self {t : Char} (r : Char) {l : List Char} (h : t ∉ l) :
    ∀ b, collapseRuns t r b l = l := by
  induction l with
  | nil => intro b; rfl
  | cons x xs ih =>
    intro b
    have hx : x ≠ t := fun hc => h (hc ▸ List.mem_cons_self x xs)
    have hxs : t ∉ xs := fun hc => h (List.mem_cons_of_mem x hc)
    simp only [collapseRuns, if_neg hx, ih hxs]

theorem mem_collapseRuns {t r x : Char} {l : List Char} :
    ∀ {b}, x ∈ collapseRuns t r b l → x ∈ l ∨ x = r := by
  induction l with
  | nil => intro b h; simp [collapseRuns] at h
  | cons y ys ih =>
    intro b h
    simp only [collapseRuns] at h
    by_cases hy : y = t
    · rw [if_pos hy] at h
      cases b with
      | true =>
        rcases ih h with hm | hm
        · exact Or.inl (List.mem_cons_of_mem y hm)
        · exact Or.inr hm
      | false =>
        rcases List.mem_cons.mp h with hm | hm
        · exact Or.inr hm
        · rcases ih hm with hm2 | hm2
          · exact Or.inl (List.mem_cons_of_mem y hm2)
          · exact Or.inr hm2
    · rw [if_neg hy] at h
      rcases List.mem_cons.mp h with hm | hm
      · exact Or.inl (hm ▸ List.mem_cons_self y ys)
      · rcases ih hm with hm2 | hm2
        · exact Or.inl (List.mem_cons_of_mem y hm2)
        · exact Or.inr hm2

theorem not_mem_collapseRuns_self {t r : Char} (hr : t ≠ r) (l : List Char) :
    ∀ b, t ∉ collapseRuns t r b l := by
  induction l with
  | nil => intro b h; simp [collapseRuns] at h
  | cons y ys ih =>
    intro b h
    simp only [collapseRuns] at h
    by_cases hy : y = t
    · rw [if_pos hy] at h
      cases b with
      | true => exact ih true h
      | false =>
        rcases List.mem_cons.mp h with hm | hm
        · exact hr hm
        · exact ih true hm
    · rw [if_neg hy] at h
      rcases List.mem_cons.mp h with hm | hm
      · exact hy hm.symm
      · exact ih false hm

theorem collapseSpaces_head_ne {xs : List Char} {y : Char} {ys : List Char}
    (h : collapseRuns ' ' ' ' true xs = y :: ys) : y ≠ ' ' := by
  induction xs generalizing ys with
  | nil => simp [collapseRuns] at h
  | cons z zs ih =>
    simp only [collapseRuns] at h
    by_cases hz : z = ' '
    · rw [if_pos hz] at h
      exact ih h
    · rw [if_neg hz] at h
      have := (List.cons.injEq _ _ _ _).mp h
      exact this.1 ▸ hz

theorem noSpacePair_tail {x : Char} {xs : List Char}
    (h : noSpacePair (x :: xs) = true) : noSpacePair xs = true := by
  cases xs with
  | nil => rfl
  | cons y ys => exact ((Bool.and_eq_true _ _).mp h).2

theorem noSpacePair_collapseSpaces (l : List Char) :
    ∀ b, noSpacePair (collapseRuns ' ' ' ' b l) = true := by
  induction l with
  | nil => intro b; rfl
  | cons x xs ih =>
    intro b
    simp only [collapseRuns]
    by_cases hx : x = ' '
    · rw [if_pos hx]
      cases b with
      | true => exact ih true
      | false =>
        cases hr : collapseRuns ' ' ' ' true xs with
        | nil => rfl
        | cons y ys =>
          have hy : y ≠ ' ' := collapseSpaces_head_ne hr
          have htail := ih true
          rw [hr] at htail
          show noSpacePair (' ' :: y :: ys) = true
          simp only [noSpacePair, htail, Bool.and_true]
          simp [hy]
    · rw [if_neg hx]
      cases hr : collapseRuns ' ' ' ' false xs with
      | nil => rfl
      | cons y ys =>
        have htail := ih false
        rw [hr] at htail
        show noSpacePair (x :: y :: ys) = true
        simp only [noSpacePair, htail, Bool.and_true]
        simp [hx]

theorem collapseSpaces_eq_self {l : List Char} (h : noSpacePair l = true) :
    ∀ b, (b = true → ∀ y ys, l = y :: ys → y ≠ ' ') →
      collapseRuns ' ' ' ' b l = l := by
  induction l with
  | nil => intro b _; rfl
  | cons x xs ih =>
    intro b hb
    simp only [collapseRuns]
    by_cases hx : x = ' '
    · cases b with
      | true => exact absurd hx (hb rfl x xs rfl)
      | false =>
        rw [if_pos hx]
        have hxs : collapseRuns ' ' ' ' true xs = xs := by
          refine ih (noSpacePair_tail h) true ?_
          intro _ y ys hy
          subst hy
          subst hx
          have := (Bool.and_eq_true _ _).mp h
          intro hyc
          simp [hyc] at this
        rw [hxs]
        exact (hx ▸ rfl)
    · rw [if_neg hx]
      rw [ih (noSpacePair_tail h) false (by simp)]

theorem mem_dropTrailingWS {x : Char} {l : List Char}
    (h : x ∈ dropTrailingWS l) : x ∈ l := by
  induction l with
  | nil => simp [dropTrailingWS] at h
  | cons y ys ih =>
    simp only [dropTrailingWS] at h
    cases hr : dropTrailingWS ys with
    | nil =>
      rw [hr] at h
      by_cases hw : y.isWhitespace = true
      · rw [if_pos hw] at h
        exact absurd h (List.not_mem_nil x)
      · rw [if_neg hw] at h
        obtain rfl := List.mem_singleton.mp h
        exact List.mem_cons_self x ys
    | cons z zs =>
      rw [hr] at h
      rcases List.mem_cons.mp h with hm | hm
      · obtain rfl := hm
        exact List.mem_cons_self x ys
      · exact List.mem_cons_of_mem y (ih (by rw [hr]; exact hm))

theorem dropTrailingWS_head {l : List Char} {y : Char} {ys : List Char}
    (h : dropTrailingWS l = y :: ys) : ∃ zs, l = y :: zs := by
  cases l with
  | nil => simp [dropTrailingWS] at h
  | cons z zs =>
    simp only [dropTrailingWS] at h
    cases hr : dropTrailingWS zs with
    | nil =>
      rw [hr] at h
      by_cases hw : z.isWhitespace = true
      · rw [if_pos hw] at h
        exact absurd h (by simp)
      · rw [if_neg hw] at h
        have hz := ((List.cons.injEq _ _ _ _).mp h).1
        exact ⟨zs, by rw [hz]⟩
    | cons w ws =>
      rw [hr] at h
      have hz := ((List.cons.injEq _ _ _ _).mp h).1
      exact ⟨zs, by rw [hz]⟩

theorem noSpacePair_dropTrailingWS {l : List Char} (h : noSpacePair l = true) :
    noSpacePair (dropTrailingWS l) = true := by
  induction l with
  | nil => rfl
  | cons x xs ih =>
    simp only [dropTrailingWS]
    cases hr : dropTrailingWS xs with
    | nil =>
      show noSpacePair (if x.isWhitespace = true then [] else [x]) = true
      split <;> rfl
    | cons y ys =>
      show noSpacePair (x :: y :: ys) = true
      have htail : noSpacePair (y :: ys) = true := hr ▸ ih (noSpacePair_tail h)
      rcases dropTrailingWS_head hr with ⟨zs, hzs⟩
      subst hzs
      have hpair := (Bool.and_eq_true _ _).mp h
      simp only [noSpacePair, htail, Bool.and_true]
      exact hpair.1

theorem noSpacePair_dropWhileWS {l : List Char} (h : noSpacePair l = true) :
    noSpacePair (l.dropWhile Char.isWhitespace) = true := by
  induction l with
  | nil => rfl
  | cons x xs ih =>
    by_cases hw : x.isWhitespace = true
    · rw [List.dropWhile_cons_of_pos hw]
      exact ih (noSpacePair_tail h)
    · rw [List.dropWhile_cons_of_neg hw]
      exact h

theorem head_dropWhile_false {p : Char → Bool} {l : List Char} {y : Char}
    {ys : List Char} (h : l.dropWhile p = y :: ys) : p y = false := by
  induction l with
  | nil => simp at h
  | cons x xs ih =>
    by_cases hp : p x = true
    · rw [List.dropWhile_cons_of_pos hp] at h
      exact ih h
    · rw [List.dropWhile_cons_of_neg hp] at h
      have hx := ((List.cons.injEq _ _ _ _).mp h).1
      rw [← hx]
      exact Bool.not_eq_true _ ▸ hp

theorem mem_of_mem_dropWhileWS {p : Char → Bool} {x : Char} {l : List Char}
    (h : x ∈ l.dropWhile p) : x ∈ l := by
  induction l with
  | nil => simp at h
  | cons y ys ih =>
    by_cases hp : p y = true
    · rw [List.dropWhile_cons_of_pos hp] at h
      exact List.mem_cons_of_mem y (ih h)
    · rw [List.dropWhile_cons_of_neg hp] at h
      exact h

theorem mem_trimChars {x : Char} {l : List Char} (h : x ∈ trimChars l) :
    x ∈ l := by
  exact mem_of_mem_dropWhileWS (mem_dropTrailingWS h)

/-- Unfolding equation of `dropTrailingWS` on a nonempty list. -/
theorem dropTrailingWS_cons (x : Char) (xs : List Char) :
    dropTrailingWS (x :: xs) =
      match dropTrailingWS xs with
      | [] => if x.isWhitespace = true then [] else [x]
      | y :: ys => x :: y :: ys := rfl

theorem dropTrailingWS_idem (l : List Char) :
    dropTrailingWS (dropTrailingWS l) = dropTrailingWS l := by
  induction l with
  | nil => rfl
  | cons x xs ih =>
    cases hr : dropTrailingWS xs with
    | nil =>
      rw [dropTrailingWS_cons, hr]
      by_cases hw : x.isWhitespace = true
      · simp only [if_pos hw]
        rfl
      · simp only [if_neg hw]
        show (if x.isWhitespace = true then ([] : List Char) else [x]) = [x]
        rw [if_neg hw]
    | cons y ys =>
      rw [dropTrailingWS_cons, hr]
      have hy : dropTrailingWS (y :: ys) = y :: ys := by
        have h2 := ih
        rw [hr] at h2
        exact h2
      show dropTrailingWS (x :: y :: ys) = x :: y :: ys
      rw [dropTrailingWS_cons, hy]

theorem trimChars_idem (l : List Char) : trimChars (trimChars l) = trimChars l := by
  unfold trimChars
  have hdw : (dropTrailingWS (l.dropWhile Char.isWhitespace)).dropWhile
      Char.isWhitespace = dropTrailingWS (l.dropWhile Char.isWhitespace) := by
    cases hr : dropTrailingWS (l.dropWhile Char.isWhitespace) with
    | nil => rfl
    | cons y ys =>
      rcases dropTrailingWS_head hr with ⟨zs, hzs⟩
      have hy : Char.isWhitespace y = false := head_dropWhile_false hzs
      rw [List.dropWhile_cons_of_neg (by simp [hy])]
  rw [hdw, dropTrailingWS_idem]

theorem not_mem_collapseSpaces {x : Char} {l : List Char} (hx : x ≠ ' ')
    (h : x ∉ l) : x ∉ collapseSpaces l := by
  intro hm
  rcases mem_collapseRuns hm with hm2 | hm2
  · exact h hm2
  · exact hx hm2

theorem normalizeLine_idem (l : List Char) :
    normalizeLine (normalizeLine l) = normalizeLine l := by
  unfold normalizeLine
  have htab : '\t' ∉ trimChars (collapseSpaces (collapseTabs l)) := by
    intro hm
    have hm2 := mem_trimChars hm
    exact not_mem_collapseSpaces (by decide)
      (not_mem_collapseRuns_self (by decide) l false) hm2
  rw [show collapseTabs (trimChars (collapseSpaces (collapseTabs l))) =
      trimChars (collapseSpaces (collapseTabs l)) from
    collapseRuns_eq_self ' ' htab false]
  have hnsp : noSpacePair (trimChars (collapseSpaces (collapseTabs l))) = true := by
    unfold trimChars
    exact noSpacePair_dropTrailingWS
      (noSpacePair_dropWhileWS (noSpacePair_collapseSpaces (collapseTabs l) false))
  rw [show collapseSpaces (trimChars (collapseSpaces (collapseTabs l))) =
      trimChars (collapseSpaces (collapseTabs l)) from
    collapseSpaces_eq_self hnsp false (by simp)]
  exact trimChars_idem _

/-- C7: the parser's whitespace normalization makes parsing
whitespace-tolerant: a raw line parses exactly as its single-space
normal form does, and the example line with tabs and repeated spaces
normalizes to `/dev/sdb DEGRADED 3 0 1` and parses to `/dev/sdb`. -/
theorem claim_C7_whitespace_tolerance :
    (∀ l : List Char,
      matchDeviceLine (normalizeLine l) =
        matchDeviceLine (normalizeLine (normalizeLine l))) ∧
    normalizeLine ("\t/dev/sdb\tDEGRADED   3  0   1".toList) =
      "/dev/sdb DEGRADED 3 0 1".toList ∧
    matchDeviceLine (normalizeLine ("\t/dev/sdb\tDEGRADED   3  0   1".toList)) =
      some ("/dev/sdb".toList) :=
  ⟨fun l => by rw [normalizeLine_idem], rfl, rfl⟩

/-! ### Base-disk resolution -/

theorem toList_mk (l : List Char) : (String.mk l).toList = l := rfl

theorem dropWhile_dropWhileCh (p : Char → Bool) (l : List Char) :
    (l.dropWhile p).dropWhile p = l.dropWhile p := by
  cases hr : l.dropWhile p with
  | nil => rfl
  | cons y ys =>
    have hy : p y = false := head_dropWhile_false hr
    rw [List.dropWhile_cons_of_neg (by simp [hy])]

theorem stripTrailingDigits_idem (l : List Char) :
    stripTrailingDigits (stripTrailingDigits l) = stripTrailingDigits l := by
  unfold stripTrailingDigits
  rw [List.reverse_reverse, dropWhile_dropWhileCh]

/-- C3 (amended): base-disk resolution is idempotent whenever symlink
canonicalization leaves the already-resolved, digit-stripped path fixed
(in particular whenever `realpath` is the identity); the digit-stripping
step alone is always idempotent.  In general `realpath` may move again on
the stripped path, so unconditional idempotence fails (see the
counterexample). -/
theorem claim_C3_amended (fs : FS) (x : String)
    (h : fs.realpath (base_disk_for_block_device fs x) =
      base_disk_for_block_device fs x) :
    base_disk_for_block_device fs (base_disk_for_block_device fs x) =
      base_disk_for_block_device fs x := by
  unfold base_disk_for_block_device at h ⊢
  rw [h, toList_mk, stripTrailingDigits_idem]

theorem claim_C3_witness :
    fsId.realpath (base_disk_for_block_device fsId "/dev/sda5") =
      base_disk_for_block_device fsId "/dev/sda5" ∧
    base_disk_for_block_device fsId (base_disk_for_block_device fsId "/dev/sda5") =
      base_disk_for_block_device fsId "/dev/sda5" :=
  ⟨rfl, claim_C3_amended fsId "/dev/sda5" rfl⟩

theorem claim_C3_counterexample :
    base_disk_for_block_device fsLink (base_disk_for_block_device fsLink "/dev/sda5") ≠
      base_disk_for_block_device fsLink "/dev/sda5" := by
  decide

/-! ### The rotational classifier -/

/-- Unfolding equation of `is_rotational` at positive fuel. -/
theorem is_rotational_succ (fuel : Nat) (fs : FS) (p : String) :
    is_rotational (fuel + 1) fs p =
      if fs.pathExists (rotational_file p) then
        (if fs.read1 (rotational_file p) = "1" then some (Except.ok true)
         else if fs.read1 (rotational_file p) = "0" then some (Except.ok false)
         else some (Except.error (PyErr.unknownValue (rotational_file p))))
      else if base_disk_for_block_device fs p ≠ p then
        is_rotational fuel fs (base_disk_for_block_device fs p)
      else some (Except.error (PyErr.fileNotFound (rotational_file p))) := rfl

/-- When base-disk resolution fixes `p`, the classifier's value at `p` does
not depend on the fuel (beyond one unit): no recursion happens. -/
theorem is_rotational_of_base_self (fuel : Nat) (fs : FS) (p : String)
    (hp : base_disk_for_block_device fs p = p) :
    is_rotational (fuel + 1) fs p = is_rotational 1 fs p := by
  rw [is_rotational_succ, show (1 : Nat) = 0 + 1 from rfl, is_rotational_succ]
  simp [hp]

/-- C2 (amended): when base-disk resolution is idempotent at the input
(`base_disk(base_disk p) = base_disk p`), the classifier needs at most one
retry: its value is fixed from fuel `2` on and is always a terminal answer;
and when the flag file is absent and re-resolution makes no progress it
fails with the could-not-find-file error.  Without that idempotence the
code retries as long as resolution makes progress, so the unconditional
claim fails (see the counterexample). -/
theorem claim_C2_amended (fs : FS) (p : String)
    (hidem : base_disk_for_block_device fs (base_disk_for_block_device fs p) =
      base_disk_for_block_device fs p) :
    (∀ fuel, 2 ≤ fuel → is_rotational fuel fs p = is_rotational 2 fs p) ∧
    (is_rotational 2 fs p).isSome = true ∧
    (fs.pathExists (rotational_file p) = false →
      base_disk_for_block_device fs p = p →
      is_rotational 2 fs p =
        some (Except.error (PyErr.fileNotFound (rotational_file p)))) := by
  by_cases hex : fs.pathExists (rotational_file p) = true
  · refine ⟨?_, ?_, ?_⟩
    · intro fuel hf
      obtain ⟨k, rfl⟩ : ∃ k, fuel = k + 1 + 1 := ⟨fuel - 2, by omega⟩
      rw [is_rotational_succ, if_pos hex,
        show (2 : Nat) = 1 + 1 from rfl, is_rotational_succ, if_pos hex]
    · rw [show (2 : Nat) = 1 + 1 from rfl, is_rotational_succ, if_pos hex]
      split
      · rfl
      · split <;> rfl
    · intro hnex
      rw [hex] at hnex
      exact absurd hnex (by simp)
  · have hex2 : fs.pathExists (rotational_file p) = false := by
      simpa using hex
    by_cases hd : base_disk_for_block_device fs p = p
    · refine ⟨?_, ?_, ?_⟩
      · intro fuel hf
        obtain ⟨k, rfl⟩ : ∃ k, fuel = k + 1 := ⟨fuel - 1, by omega⟩
        rw [is_rotational_of_base_self k fs p hd,
          show (2 : Nat) = 1 + 1 from rfl, is_rotational_of_base_self 1 fs p hd]
      · rw [show (2 : Nat) = 1 + 1 from rfl, is_rotational_of_base_self 1 fs p hd,
          show (1 : Nat) = 0 + 1 from rfl, is_rotational_succ, if_neg hex, if_neg (by simp [hd])]
        rfl
      · intro _ _
        rw [show (2 : Nat) = 1 + 1 from rfl, is_rotational_of_base_self 1 fs p hd,
          show (1 : Nat) = 0 + 1 from rfl, is_rotational_succ, if_neg hex, if_neg (by simp [hd])]
    · have hstep : ∀ k : Nat, is_rotational (k + 1 + 1) fs p =
          is_rotational (k + 1) fs (base_disk_for_block_device fs p) := by
        intro k
        rw [is_rotational_succ, if_neg hex, if_pos hd]
      refine ⟨?_, ?_, ?_⟩
      · intro fuel hf
        obtain ⟨k, rfl⟩ : ∃ k, fuel = k + 1 + 1 := ⟨fuel - 2, by omega⟩
        rw [hstep k, show (2 : Nat) = 1 + 1 from rfl, hstep 0,
          is_rotational_of_base_self k fs _ hidem]
      · rw [show (2 : Nat) = 1 + 1 from rfl, hstep 0,
          show (1 : Nat) = 0 + 1 from rfl, is_rotational_succ]
        split
        · split
          · rfl
          · split <;> rfl
        · rw [if_neg (by simp [hidem])]
          rfl
      · intro _ hd2
        exact absurd hd2 hd

theorem claim_C2_witness :
    base_disk_for_block_device fsSsd (base_disk_for_block_device fsSsd "/dev/sda1") =
      base_disk_for_block_device fsSsd "/dev/sda1" ∧
    (2 : Nat) ≤ 5 ∧
    is_rotational 5 fsSsd "/dev/sda1" = is_rotational 2 fsSsd "/dev/sda1" ∧
    (is_rotational 2 fsSsd "/dev/sda1").isSome = true :=
  ⟨rfl, by norm_num,
    (claim_C2_amended fsSsd "/dev/sda1" rfl).1 5 (by norm_num),
    (claim_C2_amended fsSsd "/dev/sda1" rfl).2.1⟩

theorem claim_C2_counterexample :
    is_rotational 2 fsChain "/dev/a" = none ∧
    is_rotational 3 fsChain "/dev/a" = some (Except.ok false) :=
  ⟨rfl, rfl⟩

/-- C8: when the metadata-flag file exists, the classifier reads one
character from it and returns rotational for `'1'`, non-rotational for
`'0'`, and the unknown-value error for any other content (including an
empty read); this equation exhausts the outcomes of the read step. -/
theorem claim_C8_read_step (fs : FS) (p : String) (fuel : Nat)
    (h : fs.pathExists (rotational_file p) = true) :
    is_rotational (fuel + 1) fs p =
      some (if fs.read1 (rotational_file p) = "1" then Except.ok true
        else if fs.read1 (rotational_file p) = "0" then Except.ok false
        else Except.error (PyErr.unknownValue (rotational_file p))) := by
  rw [is_rotational_succ, if_pos h]
  split_ifs <;> rfl

theorem claim_C8_witness :
    fsSsd.pathExists (rotational_file "/dev/sdb") = true ∧
    is_rotational 1 fsSsd "/dev/sdb" = some (Except.ok true) :=
  ⟨rfl, claim_C8_read_step fsSsd "/dev/sdb" 0 rfl⟩

/-! ### Fetcher, orchestration and aggregation -/

/-- C4 (counterexample): for a non-string input the fetcher does not fail —
it returns `None` — and an empty-string pool name is accepted and passed to
the external command rather than rejected. -/
theorem claim_C4_counterexample :
    zpool_status envOut Dyn.nonStr = Except.ok none ∧
    zpool_status envOut (Dyn.str "") = Except.ok (some "stdout") :=
  ⟨rfl, rfl⟩

/-- C4 (amended): for a non-string input the pool-status fetcher returns
`None` rather than raising; the invalid-argument failure for non-string
input is raised instead by its callers, `block_devices_for_pool` and
`zpool_is_pure_solid_state`, before any fetch happens. -/
theorem claim_C4_amended :
    ∀ env : ZEnv,
      zpool_status env Dyn.nonStr = Except.ok none ∧
      block_devices_for_pool env Dyn.nonStr =
        Except.error PyErr.invalidPoolBlockDevices ∧
      ∀ fuel, zpool_is_pure_solid_state env fuel Dyn.nonStr =
        some (Except.error PyErr.invalidPoolCheck) :=
  fun _ => ⟨rfl, rfl, fun _ => rfl⟩

/-- C5: an empty parsed device list makes the pool classifier return `True`
(vacuous truth) without raising. -/
theorem claim_C5_vacuous_truth (env : ZEnv) (fuel : Nat) (p : String)
    (h : block_devices_for_pool env (Dyn.str p) = Except.ok []) :
    zpool_is_pure_solid_state env fuel (Dyn.str p) = some (Except.ok true) := by
  show (match block_devices_for_pool env (Dyn.str p) with
    | Except.error e => some (Except.error e)
    | Except.ok devs =>
      match rotationals fuel env.fs
          ((List.map (base_disk_for_block_device env.fs) devs).dedup) with
      | none => none
      | some (Except.error e) => some (Except.error e)
      | some (Except.ok rots) => some (Except.ok (!rots.contains true))) =
    some (Except.ok true)
  rw [h]
  rfl

theorem claim_C5_witness :
    block_devices_for_pool envNoDevices (Dyn.str "tank") = Except.ok [] ∧
    zpool_is_pure_solid_state envNoDevices 1 (Dyn.str "tank") =
      some (Except.ok true) :=
  ⟨rfl, claim_C5_vacuous_truth envNoDevices 1 "tank" rfl⟩

/-- C9: when the status fetch succeeds, the parser never fails: the device
stage returns exactly the parse of the stdout text; parsing keeps file
order and duplicates, and empty input parses to the empty list. -/
theorem claim_C9_parser_total :
    (∀ (env : ZEnv) (p stdout : String), env.zpool p = ZpoolOutcome.out stdout →
      block_devices_for_pool env (Dyn.str p) =
        Except.ok (block_devices_parse stdout)) ∧
    block_devices_parse "" = [] ∧
    block_devices_parse
        "/dev/sda ONLINE 0 0 0\n/dev/sdb ONLINE 0 0 0\n/dev/sda ONLINE 0 0 0" =
      ["/dev/sda", "/dev/sdb", "/dev/sda"] ∧
    (∀ s : String, (∀ l ∈ normalizeLines s.toList, matchDeviceLine l = none) →
      block_devices_parse s = []) := by
  refine ⟨?_, rfl, rfl, ?_⟩
  · intro env p stdout h
    have hz : zpool_status env (Dyn.str p) = Except.ok (some stdout) := by
      show (match env.zpool p with
        | ZpoolOutcome.out s => Except.ok (some s)
        | ZpoolOutcome.exitNonZero =>
          Except.error (PyErr.poolQueryFailed p)) = Except.ok (some stdout)
      rw [h]
    show (match zpool_status env (Dyn.str p) with
      | Except.error e => Except.error e
      | Except.ok none => Except.ok []
      | Except.ok (some status) => Except.ok (block_devices_parse status)) =
      Except.ok (block_devices_parse stdout)
    rw [hz]
  · intro s hs
    unfold block_devices_parse
    rw [List.filterMap_eq_nil_iff.mpr hs]
    rfl

theorem claim_C9_witness :
    envSsd.zpool "tank" = ZpoolOutcome.out statusTwoSsd ∧
    block_devices_for_pool envSsd (Dyn.str "tank") =
      Except.ok (block_devices_parse statusTwoSsd) :=
  ⟨rfl, claim_C9_parser_total.1 envSsd "tank" statusTwoSsd rfl⟩

/-- The list `[ is_rotational(d) for d in disks ]` succeeds with values `bs`
exactly when each element classifies; then "no `True` in the list" says
every listed disk classified non-rotational. -/
theorem rotationals_ok_iff (fuel : Nat) (fs : FS) :
    ∀ (ds : List String) (bs : List Bool),
      rotationals fuel fs ds = some (Except.ok bs) →
      ((bs.contains true = false) ↔
        ∀ d ∈ ds, is_rotational fuel fs d = some (Except.ok false)) := by
  intro ds
  induction ds with
  | nil =>
    intro bs h
    simp only [rotationals] at h
    have hbs : bs = [] := by
      have h2 := Option.some.inj h
      exact (Except.ok.inj h2).symm
    subst hbs
    simp
  | cons d ds ih =>
    intro bs h
    simp only [rotationals] at h
    cases hr : is_rotational fuel fs d with
    | none =>
      rw [hr] at h
      exact absurd h (by simp)
    | some res =>
      rw [hr] at h
      cases res with
      | error e => simp at h
      | ok b =>
        cases hrest : rotationals fuel fs ds with
        | none =>
          rw [hrest] at h
          simp at h
        | some rr =>
          rw [hrest] at h
          cases rr with
          | error e => simp at h
          | ok bs2 =>
            have hbs : bs = b :: bs2 := by
              have h2 := Option.some.inj h
              exact (Except.ok.inj h2).symm
            subst hbs
            have hih := ih bs2 hrest
            constructor
            · intro hc
              cases hb : b with
              | true =>
                subst hb
                simp at hc
              | false =>
                subst hb
                simp only [List.contains_cons] at hc
                have hc2 : bs2.contains true = false := by
                  simpa using hc
                refine List.forall_mem_cons.mpr ⟨?_, hih.mp hc2⟩
                rw [hr]
            · intro hall
              obtain ⟨h1, h2⟩ := List.forall_mem_cons.mp hall
              have hb : b = false := by
                rw [hr] at h1
                exact Except.ok.inj (Option.some.inj h1)
              subst hb
              simp only [List.contains_cons]
              simpa using hih.mpr h2

/-- C1: when the pool classifier returns a value `r`, `r` is `True` exactly
when every distinct base disk (set semantics: membership in the finite set
of base disks of the parsed devices, so order and duplicates are
irrelevant) classifies as non-rotational. -/
theorem claim_C1_pool_classifier (env : ZEnv) (fuel : Nat) (p : String)
    (devs : List String) (r : Bool)
    (hd : block_devices_for_pool env (Dyn.str p) = Except.ok devs)
    (h : zpool_is_pure_solid_state env fuel (Dyn.str p) = some (Except.ok r)) :
    (r = true ↔
      ∀ d ∈ (devs.map (base_disk_for_block_device env.fs)).toFinset,
        is_rotational fuel env.fs d = some (Except.ok false)) := by
  have h1 : (match block_devices_for_pool env (Dyn.str p) with
    | Except.error e => some (Except.error e)
    | Except.ok devs =>
      match rotationals fuel env.fs
          ((List.map (base_disk_for_block_device env.fs) devs).dedup) with
      | none => none
      | some (Except.error e) => some (Except.error e)
      | some (Except.ok rots) => some (Except.ok (!rots.contains true))) =
      some (Except.ok r) := h
  rw [hd] at h1
  have h2 : (match rotationals fuel env.fs
      ((devs.map (base_disk_for_block_device env.fs)).dedup) with
    | none => none
    | some (Except.error e) => some (Except.error e)
    | some (Except.ok rots) => some (Except.ok (!rots.contains true))) =
      some (Except.ok r) := h1
  cases hrot : rotationals fuel env.fs
      ((devs.map (base_disk_for_block_device env.fs)).dedup) with
  | none =>
    rw [hrot] at h2
    exact absurd h2 (by simp)
  | some rr =>
    rw [hrot] at h2
    cases rr with
    | error e => simp at h2
    | ok rots =>
      have hre : r = !rots.contains true := by
        have h3 := Option.some.inj h2
        exact (Except.ok.inj h3).symm
      subst hre
      have hiff := rotationals_ok_iff fuel env.fs _ rots hrot
      rw [Bool.not_eq_true', hiff]
      constructor
      · intro hall d hdm
        exact hall d (by rw [List.mem_dedup, ← List.mem_toFinset]; exact hdm)
      · intro hall d hdm
        exact hall d (by rw [List.mem_toFinset, ← List.mem_dedup]; exact hdm)

theorem claim_C1_witness :
    block_devices_for_pool envSsd (Dyn.str "tank") =
      Except.ok ["/dev/sda1", "/dev/sda2"] ∧
    zpool_is_pure_solid_state envSsd 1 (Dyn.str "tank") =
      some (Except.ok true) ∧
    (true = true ↔
      ∀ d ∈ (["/dev/sda1", "/dev/sda2"].map
          (base_disk_for_block_device envSsd.fs)).toFinset,
        is_rotational 1 envSsd.fs d = some (Except.ok false)) :=
  ⟨rfl, rfl, claim_C1_pool_classifier envSsd 1 "tank" ["/dev/sda1", "/dev/sda2"]
    true rfl rfl⟩
